import Mathlib

set_option linter.unusedVariables false

namespace SGB

/-! Shallow embedding of the StyleGuideBuddy annotation engine
(`analyze_doc` in src/checker/run.py) and of the diff utility
(`generate_diff` in src/utils.py).  Text is modelled as `List Char`
(ASCII documents), python-docx runs as records with a mutable color,
and the external word-frequency oracle as an `Except`-valued function
parameter.  Python exceptions (KeyError from the char-to-run lookup,
an oracle failure) are modelled by the `Except` monad threaded through
the whole call, mirroring how an exception aborts the entire
`analyze_doc` invocation. -/

/-- Severity colors (RULE_COLOR_RGB in src/checker/run.py): red for
"style guide rule", orange for "style guide caution". -/
inductive Color where
  | red
  | orange
deriving DecidableEq, Repr

/-- Rule categories, the two normalized values of `rule_type`. -/
inductive RuleType where
  | styleGuideRule
  | styleGuideCaution
deriving DecidableEq, Repr

/-- Color chosen for a rule category: `RULE_COLOR_RGB[rule["rule_type"]]`. -/
def colorOf : RuleType → Color
  | .styleGuideRule => .red
  | .styleGuideCaution => .orange

/-- Python's `"style guide rule".title()` / `"style guide caution".title()`,
used for the `rule_category` field of literal-rule issues. -/
def titleCat : RuleType → String
  | .styleGuideRule => "Style Guide Rule"
  | .styleGuideCaution => "Style Guide Caution"

/-- A docx run: a fixed text fragment plus a mutable font color
(initially unset). -/
structure Run where
  text : List Char
  color : Option Color := none
deriving DecidableEq, Repr

/-- A paragraph as `analyze_doc` reads it: `para.text` and `para.runs`
are read separately, so the embedding keeps both fields (they agree
exactly when the run texts reconstruct the paragraph text). -/
structure Paragraph where
  text : List Char
  runs : List Run
deriving DecidableEq, Repr

/-- A normalized rule as produced by `load_rules` and consumed by
`analyze_doc`. -/
structure Rule where
  pattern : List Char
  message : String := ""
  replace_with : Option String := none
  rule_type : RuleType := .styleGuideCaution
  case_sensitive : Bool := false
deriving DecidableEq, Repr

/-- One entry of the `results` list built by `analyze_doc`. -/
structure Issue where
  match_text : List Char
  rule_category : String
  message : String
  suggested_replacement : Option String
  context : List Char
  paragraph_index : Nat
  char_index : Nat
deriving DecidableEq, Repr

/-- Errors that abort a whole `analyze_doc` call: a `KeyError` from
`char_to_run[i]` on an unmapped offset, or a failure of the external
word-frequency oracle. -/
inductive AErr where
  | keyErr
  | oracleErr
deriving DecidableEq, Repr

/-- The external word-frequency oracle (`word_frequency(word, "en")`
from the wordfreq library): a query that either reports a frequency or
fails.  Frequencies are modelled as exact rationals. -/
def Oracle : Type := List Char → Except Unit ℚ

/-- The rarity cutoff `1e-6` of the dictionary pass, as the exact
rational 1/1000000 (written with `mkRat` so that comparisons against
it compute). -/
def rareThreshold : ℚ := mkRat 1 1000000

/-- BRITISH_TO_AMERICAN table from src/checker/run.py. -/
def BRITISH_TO_AMERICAN : List (List Char × String) :=
  [("organisation".toList, "organization"),
   ("organisations".toList, "organizations"),
   ("colour".toList, "color"),
   ("colours".toList, "colors"),
   ("fibre".toList, "fiber"),
   ("programme".toList, "program"),
   ("labour".toList, "labor"),
   ("centre".toList, "center"),
   ("behaviour".toList, "behavior"),
   ("travelling".toList, "traveling"),
   ("travelled".toList, "traveled")]

/-! Regex-lite scanners.  `analyze_doc` uses four regex shapes, all of
the form word-boundary, body, word-boundary: an escaped literal
(`\b re.escape(pat) \b`), and the character classes `[A-Za-z]{2,}`,
`[A-Z]{2,}`, and an alphabetic-or-apostrophe class with `{1,}`.
The scanners below reproduce `re.finditer` for exactly these shapes:
leftmost match, greedy body with backtracking against the trailing
boundary, continuing after the end of each match. -/

/-- Python `\w` (ASCII): letters, digits, underscore. -/
def isWordChar (c : Char) : Bool := c.isAlphanum || c == '_'

/-- Whether offset `i` of `t` holds a word character (out of range
counts as non-word). -/
def wordAt (t : List Char) (i : Nat) : Bool :=
  match t.get? i with
  | some c => isWordChar c
  | none => false

/-- Regex `\b` at position `i`: the characters at `i-1` and `i`
disagree about being word characters (positions outside the text are
non-word). -/
def boundary (t : List Char) (i : Nat) : Bool :=
  ((decide (i ≠ 0)) && wordAt t (i - 1)) != wordAt t i

/-- Substring `t[s:e]`. -/
def slice (t : List Char) (s e : Nat) : List Char := (t.drop s).take (e - s)

/-- Lowercase a word (`str.lower`, ASCII). -/
def lowerL (w : List Char) : List Char := w.map Char.toLower

/-- Case folding applied by `re.IGNORECASE` when `ci` is true. -/
def foldCase (ci : Bool) (w : List Char) : List Char :=
  if ci then lowerL w else w

/-- Does the literal `p` occur at offset `i` of `t` (case-insensitively
when `ci`)? -/
def matchesAt (ci : Bool) (p t : List Char) (i : Nat) : Bool :=
  decide (foldCase ci (slice t i (i + p.length)) = foldCase ci p)

/-- Full hit of `\b p \b` at offset `i`. -/
def litHit (ci : Bool) (p t : List Char) (i : Nat) : Bool :=
  boundary t i && matchesAt ci p t i && boundary t (i + p.length)

/-- `re.finditer(rf"\b{re.escape(p)}\b", t)` from position `i` on,
returning `[start, end)` spans; the fuel argument bounds the scan
(each step advances the position, so `t.length + 2` suffices). -/
def findFrom (ci : Bool) (p t : List Char) : Nat → Nat → List (Nat × Nat)
  | _, 0 => []
  | i, fuel + 1 =>
    if t.length < i then []
    else if litHit ci p t i then
      (i, i + p.length) :: findFrom ci p t (i + max p.length 1) fuel
    else findFrom ci p t (i + 1) fuel

/-- All non-overlapping whole-word occurrences of the literal `p` in `t`. -/
def findMatches (ci : Bool) (p t : List Char) : List (Nat × Nat) :=
  findFrom ci p t 0 (t.length + 2)

/-- Length of the greedy class match starting at offset `i`. -/
def greedy (cls : Char → Bool) (t : List Char) (i : Nat) : Nat :=
  ((t.drop i).takeWhile cls).length

/-- Backtracking of `cls{minLen,}` against the trailing `\b`: the
largest length `L` with `minLen ≤ L ≤ g` such that `t` has a word
boundary at `i + L`. -/
def backEnd (t : List Char) (i minLen : Nat) : Nat → Option Nat
  | 0 => none
  | g + 1 =>
    if minLen ≤ g + 1 && boundary t (i + (g + 1)) then some (g + 1)
    else backEnd t i minLen g

/-- `re.finditer` for `\b cls{minLen,} \b` from position `i` on. -/
def scanFrom (cls : Char → Bool) (minLen : Nat) (t : List Char) :
    Nat → Nat → List (Nat × Nat)
  | _, 0 => []
  | i, fuel + 1 =>
    if t.length ≤ i then []
    else if boundary t i then
      match backEnd t i minLen (greedy cls t i) with
      | some L => (i, i + L) :: scanFrom cls minLen t (i + L) fuel
      | none => scanFrom cls minLen t (i + 1) fuel
    else scanFrom cls minLen t (i + 1) fuel

/-- All matches of `\b cls{minLen,} \b` in `t` (requires `1 ≤ minLen`). -/
def scanTokens (cls : Char → Bool) (minLen : Nat) (t : List Char) :
    List (Nat × Nat) :=
  scanFrom cls minLen t 0 (t.length + 2)

/-- Spans of `re.findall(r"\b[A-Za-z]{2,}\b", text)`, the tokens of the
full-caps heuristic. -/
def capsWordSpans (t : List Char) : List (Nat × Nat) :=
  scanTokens Char.isAlpha 2 t

/-- Spans of `re.finditer(r"\b[A-Z]{2,}\b", text)`, the uppercase runs
colored by the full-caps heuristic. -/
def upperSpans (t : List Char) : List (Nat × Nat) :=
  scanTokens Char.isUpper 2 t

/-- The apostrophe character, part of the word-token class. -/
def apos : Char := Char.ofNat 39

/-- Spans of `re.finditer(r"\b[A-Za-z']+\b", text)`, the word tokens of
the regional-spelling and dictionary passes. -/
def wordSpans (t : List Char) : List (Nat × Nat) :=
  scanTokens (fun c => c.isAlpha || c == apos) 1 t

/-- `words = re.findall(r"\b[A-Za-z]{2,}\b", text)`, as token texts. -/
def capsWords (t : List Char) : List (List Char) :=
  (capsWordSpans t).map (fun p => slice t p.1 p.2)

/-- `len(caps_words)`: how many of the tokens are fully uppercase
(`w.isupper()` on a purely alphabetic token). -/
def capsCount (t : List Char) : Nat :=
  ((capsWords t).filter (fun w => w.all Char.isUpper)).length

/-- The trigger `words and len(caps_words) / len(words) >= 0.6` of the
full-caps heuristic.  The float comparison of the source is expressed
as the exact comparison `3 * |words| ≤ 5 * |caps_words|`, which agrees
with the IEEE-double comparison for every token count a document can
produce. -/
def capsTrigger (t : List Char) : Bool :=
  !(capsWords t).isEmpty && decide (3 * (capsWords t).length ≤ 5 * capsCount t)

/-! The per-paragraph state and the four scanning passes. -/

/-- The `char_to_run` map of a paragraph: offset `i` of the
concatenated run texts is owned by run number `charMap[i]`; offsets
beyond the mapped region raise `KeyError` on lookup. -/
def buildCharMap (runs : List Run) : List Nat :=
  (runs.enum.map (fun p => List.replicate p.2.text.length p.1)).flatten

/-- Immutable per-paragraph context: the paragraph text, its
char-to-run map and its 1-based index. -/
structure ParaCtx where
  text : List Char
  charMap : List Nat
  idx : Nat
deriving Repr

/-- Mutable per-paragraph state.  `runs`, `applied` and `results`
mirror the source's run objects, `applied_indices` set and `results`
list.  `accepted` and `litPatterns` are bookkeeping that records, at
exactly the points where the source claims offsets, the span just
claimed and (for the literal pass) the pattern just reported; they are
written and never read by the engine. -/
structure PState where
  runs : List Run
  applied : List Nat
  accepted : List (Nat × Nat)
  results : List Issue
  litPatterns : List (List Char)
deriving DecidableEq, Repr

/-- Initial state of a paragraph. -/
def initState (runs : List Run) : PState :=
  { runs := runs, applied := [], accepted := [], results := [], litPatterns := [] }

/-- `any(i in applied_indices for i in range(s, e))`. -/
def overlaps (A : List Nat) (s e : Nat) : Bool :=
  (List.range' s (e - s)).any (fun i => decide (i ∈ A))

/-- Set the color of run `j`. -/
def setColor (runs : List Run) (j : Nat) (c : Color) : List Run :=
  runs.mapIdx (fun k r => if k = j then { r with color := some c } else r)

/-- `for i in range(s, s + n): char_to_run[i].font.color.rgb = c` —
colors `n` consecutive offsets starting at `s`, failing with
`KeyError` on the first unmapped offset. -/
def colorChars (charMap : List Nat) (c : Color) (runs : List Run) :
    Nat → Nat → Except AErr (List Run)
  | _, 0 => .ok runs
  | i, n + 1 =>
    match charMap.get? i with
    | none => .error .keyErr
    | some j => colorChars charMap c (setColor runs j c) (i + 1) n

/-- Record an accepted match: the recolored runs replace the old ones,
every offset of `[s, e)` is added to the claimed set, the span is
recorded, and the match's issues (and, for the literal pass, its
pattern) are appended. -/
def claimSpan (st : PState) (runs' : List Run) (s e : Nat)
    (iss : List Issue) (lp : List (List Char)) : PState :=
  { runs := runs',
    applied := st.applied ++ List.range' s (e - s),
    accepted := st.accepted ++ [(s, e)],
    results := st.results ++ iss,
    litPatterns := st.litPatterns ++ lp }

/-- Issue reported for a literal-rule match at `[s, e)`. -/
def litIssue (pc : ParaCtx) (r : Rule) (s e : Nat) : Issue :=
  { match_text := slice pc.text s e,
    rule_category := titleCat r.rule_type,
    message := r.message,
    suggested_replacement := r.replace_with,
    context := pc.text,
    paragraph_index := pc.idx,
    char_index := s + 1 }

/-- The aggregate issue of the full-caps heuristic. -/
def capsIssue (pc : ParaCtx) : Issue :=
  { match_text := "ALL CAPS sentence".toList,
    rule_category := "Style guide caution",
    message := "Avoid full capitalisation. Use sentence case unless this is an approved acronym.",
    suggested_replacement := none,
    context := pc.text,
    paragraph_index := pc.idx,
    char_index := 1 }

/-- Issue reported for a British spelling at `[s, e)`. -/
def britIssue (pc : ParaCtx) (w : List Char) (repl : String) (s : Nat) : Issue :=
  { match_text := w,
    rule_category := "Style guide caution",
    message := "British spelling detected. Use American English.",
    suggested_replacement := some repl,
    context := pc.text,
    paragraph_index := pc.idx,
    char_index := s + 1 }

/-- Issue reported for a dictionary-rarity match at `[s, e)`. -/
def dictIssue (pc : ParaCtx) (w : List Char) (s : Nat) : Issue :=
  { match_text := w,
    rule_category := "Style guide rule",
    message := "Word not recognized in American English dictionary.",
    suggested_replacement := none,
    context := pc.text,
    paragraph_index := pc.idx,
    char_index := s + 1 }

/-- Inner loop of the literal-rule pass for one rule: offer each
occurrence in scan order; skip it if any of its offsets is claimed or
the rule's pattern was already reported in this paragraph; otherwise
color, claim, report, and mark the pattern as reported. -/
def runLitMatches (pc : ParaCtx) (r : Rule) :
    List (Nat × Nat) → PState → List (List Char) →
    Except AErr (PState × List (List Char))
  | [], st, rep => .ok (st, rep)
  | (s, e) :: ms, st, rep =>
    if overlaps st.applied s e then runLitMatches pc r ms st rep
    else if r.pattern ∈ rep then runLitMatches pc r ms st rep
    else
      match colorChars pc.charMap (colorOf r.rule_type) st.runs s (e - s) with
      | .error er => .error er
      | .ok runs' =>
        runLitMatches pc r ms
          (claimSpan st runs' s e [litIssue pc r s e] [r.pattern])
          (r.pattern :: rep)

/-- The literal-rule pass: rules in list order; a rule whose pattern is
the empty string is skipped (`if not rule["pattern"]: continue`). -/
def runRules (pc : ParaCtx) :
    List Rule → PState → List (List Char) →
    Except AErr (PState × List (List Char))
  | [], st, rep => .ok (st, rep)
  | r :: rs, st, rep =>
    if r.pattern = [] then runRules pc rs st rep
    else
      match runLitMatches pc r (findMatches (!r.case_sensitive) r.pattern pc.text) st rep with
      | .error er => .error er
      | .ok (st', rep') => runRules pc rs st' rep'

/-- Coloring loop of the full-caps heuristic: each uppercase run whose
offsets are all unclaimed is colored orange and claimed; no per-run
issue is reported. -/
def colorUpperRuns (pc : ParaCtx) :
    List (Nat × Nat) → PState → Except AErr PState
  | [], st => .ok st
  | (s, e) :: ms, st =>
    if overlaps st.applied s e then colorUpperRuns pc ms st
    else
      match colorChars pc.charMap Color.orange st.runs s (e - s) with
      | .error er => .error er
      | .ok runs' => colorUpperRuns pc ms (claimSpan st runs' s e [] [])

/-- The full-caps pass: when the trigger holds, color the unclaimed
uppercase runs and append the single aggregate issue (the aggregate is
appended unconditionally, after the coloring loop, and claims no
offsets itself). -/
def capsPass (pc : ParaCtx) (st : PState) : Except AErr PState :=
  if capsTrigger pc.text then
    match colorUpperRuns pc (upperSpans pc.text) st with
    | .error er => .error er
    | .ok st' => .ok { st' with results := st'.results ++ [capsIssue pc] }
  else .ok st

/-- The regional-spelling pass over the word tokens: every occurrence
whose lowercase form is a key of BRITISH_TO_AMERICAN and whose offsets
are unclaimed is colored, claimed and reported with the American
replacement. -/
def britPass (pc : ParaCtx) :
    List (Nat × Nat) → PState → Except AErr PState
  | [], st => .ok st
  | (s, e) :: ms, st =>
    match List.lookup (lowerL (slice pc.text s e)) BRITISH_TO_AMERICAN with
    | none => britPass pc ms st
    | some repl =>
      if overlaps st.applied s e then britPass pc ms st
      else
        match colorChars pc.charMap Color.orange st.runs s (e - s) with
        | .error er => .error er
        | .ok runs' =>
          britPass pc ms
            (claimSpan st runs' s e [britIssue pc (slice pc.text s e) repl s] [])

/-- The dictionary-rarity pass over the word tokens: an unclaimed,
purely alphabetic occurrence is queried against the oracle; a reported
frequency strictly below `1e-6` makes it colored, claimed and
reported; an oracle failure aborts the whole call. -/
def dictPass (pc : ParaCtx) (oracle : Oracle) :
    List (Nat × Nat) → PState → Except AErr PState
  | [], st => .ok st
  | (s, e) :: ms, st =>
    if overlaps st.applied s e then dictPass pc oracle ms st
    else if !(slice pc.text s e).all Char.isAlpha then dictPass pc oracle ms st
    else
      match oracle (lowerL (slice pc.text s e)) with
      | .error _ => .error .oracleErr
      | .ok q =>
        if q < rareThreshold then
          match colorChars pc.charMap Color.red st.runs s (e - s) with
          | .error er => .error er
          | .ok runs' =>
            dictPass pc oracle ms
              (claimSpan st runs' s e [dictIssue pc (slice pc.text s e) s] [])
        else dictPass pc oracle ms st

/-- One paragraph of `analyze_doc`: build the char-to-run map, then run
the four passes in their fixed order on a fresh state. -/
def analyzePara (rules : List Rule) (oracle : Oracle) (idx : Nat)
    (p : Paragraph) : Except AErr PState :=
  let pc : ParaCtx := { text := p.text, charMap := buildCharMap p.runs, idx := idx }
  match runRules pc rules (initState p.runs) [] with
  | .error er => .error er
  | .ok sr =>
    match capsPass pc sr.1 with
    | .error er => .error er
    | .ok st2 =>
      match britPass pc (wordSpans pc.text) st2 with
      | .error er => .error er
      | .ok st3 => dictPass pc oracle (wordSpans pc.text) st3

/-- `if not text.strip(): continue` — a paragraph whose text is all
whitespace (or empty) is skipped. -/
def isBlank (t : List Char) : Bool := t.all Char.isWhitespace

/-- `analyze_doc` from paragraph index `idx` on: blank paragraphs are
passed through untouched (but still counted by `enumerate`);
non-blank paragraphs are processed and their recolored runs and issues
collected in order. -/
def analyzeDocFrom (rules : List Rule) (oracle : Oracle) :
    Nat → List Paragraph → Except AErr (List Paragraph × List Issue)
  | _, [] => .ok ([], [])
  | idx, p :: ps =>
    if isBlank p.text then
      match analyzeDocFrom rules oracle (idx + 1) ps with
      | .error er => .error er
      | .ok o => .ok (p :: o.1, o.2)
    else
      match analyzePara rules oracle idx p with
      | .error er => .error er
      | .ok st =>
        match analyzeDocFrom rules oracle (idx + 1) ps with
        | .error er => .error er
        | .ok o => .ok ({ p with runs := st.runs } :: o.1, st.results ++ o.2)

/-- `analyze_doc(uploaded_file)` with the document and rule set passed
in directly (loading the file and the rules JSON is external I/O):
returns the mutated document and the ordered issue list, or the
exception that aborted the call. -/
def analyze_doc (rules : List Rule) (oracle : Oracle) (doc : List Paragraph) :
    Except AErr (List Paragraph × List Issue) :=
  analyzeDocFrom rules oracle 1 doc

/-! Notions used to state the overlap-resolution properties. -/

/-- Two spans share no character offset. -/
def SpanDisj (p q : Nat × Nat) : Prop :=
  ∀ i : Nat, ¬((p.1 ≤ i ∧ i < p.2) ∧ (q.1 ≤ i ∧ i < q.2))

/-- Claim-map invariant of a paragraph state: every accepted span's
offsets are claimed, and the accepted spans are pairwise disjoint. -/
def ClaimInv (st : PState) : Prop :=
  (∀ p ∈ st.accepted, ∀ i : Nat, p.1 ≤ i → i < p.2 → i ∈ st.applied) ∧
  st.accepted.Pairwise SpanDisj

/-! The diff utility (`generate_diff` in src/utils.py). -/

/-- A word token tagged by the diff: kept (unchanged), inserted, or
deleted. -/
inductive DTok where
  | keep (w : String)
  | ins (w : String)
  | del (w : String)
deriving DecidableEq, Repr

/-- Python `before_text.split()` with no argument: split on whitespace
runs, discarding empty pieces. -/
def splitWs (s : String) : List String :=
  (s.split Char.isWhitespace).filter (fun w => w ≠ "")

/-- Modelled from the spec: the length of a longest common
subsequence.  It underlies `difflib.ndiff`, which belongs to the
Python standard library and is not part of this repository; the spec
describes the diff as "a standard longest-common-subsequence-based
sequence diff".  The first argument is fuel bounding the recursion. -/
def lcsLen : Nat → List String → List String → Nat
  | 0, _, _ => 0
  | _, [], _ => 0
  | _, _, [] => 0
  | f + 1, x :: xs, y :: ys =>
    if x = y then lcsLen f xs ys + 1
    else max (lcsLen f xs (y :: ys)) (lcsLen f (x :: xs) ys)

/-- Modelled from the spec: the tagged-token sequence produced by
`difflib.ndiff` on two token lists, as a standard LCS-based sequence
diff: equal heads are kept; otherwise the side that preserves a
longest common subsequence is consumed first. -/
def diffTok : Nat → List String → List String → List DTok
  | 0, _, _ => []
  | _, [], ys => ys.map DTok.ins
  | _, xs, [] => xs.map DTok.del
  | f + 1, x :: xs, y :: ys =>
    if x = y then DTok.keep x :: diffTok f xs ys
    else if lcsLen f (x :: xs) ys ≤ lcsLen f xs (y :: ys)
    then DTok.del x :: diffTok f xs (y :: ys)
    else DTok.ins y :: diffTok f (x :: xs) ys

/-- The tagged tokens of `difflib.ndiff(a, b)` (fuel instantiated so
that it never runs out). -/
def ndiff (a b : List String) : List DTok :=
  diffTok (a.length + b.length + 1) a b

/-- Rendering of one ndiff token by `generate_diff`: tokens tagged
inserted or deleted become colored HTML spans, kept tokens stay bare
(`token[2:]` strips the two-character ndiff tag prefix). -/
def renderTok : DTok → String
  | .keep w => w
  | .ins w => "<span style=\x27color:green\x27>+" ++ w ++ "</span>"
  | .del w => "<span style=\x27color:red\x27>-" ++ w ++ "</span>"

/-- `generate_diff(before_text, after_text)` from src/utils.py:
whitespace-split both texts, diff the token lists, render each tagged
token and join with single spaces. -/
def generate_diff (before_text after_text : String) : String :=
  String.intercalate " "
    ((ndiff (splitWs before_text) (splitWs after_text)).map renderTok)

/-! Concrete rules, documents, oracles and states used to instantiate
the verified properties on executable inputs. -/

/-- An oracle that reports every word as common. -/
def okOr : Oracle := fun _ => Except.ok 1

/-- A caution rule with the one-letter pattern "y". -/
def rW : Rule := { pattern := "y".toList, message := "m2", rule_type := .styleGuideCaution }

/-- A strict rule with the one-letter pattern "z". -/
def rZ : Rule := { pattern := "z".toList, message := "m3", rule_type := .styleGuideRule }

/-- A one-run paragraph reading "y z". -/
def paraYZ : Paragraph := { text := "y z".toList, runs := [{ text := "y z".toList }] }

/-- Paragraph context of `paraYZ`. -/
def pcYZ : ParaCtx := { text := "y z".toList, charMap := [0, 0, 0], idx := 1 }

/-- The state after processing `paraYZ` under `[rW, rZ]`. -/
def stYZ : PState :=
  { runs := [{ text := "y z".toList, color := some Color.red }],
    applied := [0, 2],
    accepted := [(0, 1), (2, 3)],
    results :=
      [{ match_text := "y".toList, rule_category := "Style Guide Caution",
         message := "m2", suggested_replacement := none,
         context := "y z".toList, paragraph_index := 1, char_index := 1 },
       { match_text := "z".toList, rule_category := "Style Guide Rule",
         message := "m3", suggested_replacement := none,
         context := "y z".toList, paragraph_index := 1, char_index := 3 }],
    litPatterns := ["y".toList, "z".toList] }

/-- A strict rule with the two-word pattern "x y". -/
def rXY : Rule := { pattern := "x y".toList, message := "m1", rule_type := .styleGuideRule }

/-- A one-run paragraph reading "x y z y": rule "x y" claims offsets
0-2, so the first occurrence of "y" (offset 2) is always rejected. -/
def paraC2 : Paragraph := { text := "x y z y".toList, runs := [{ text := "x y z y".toList }] }

/-- A one-run paragraph with two occurrences of a British spelling. -/
def paraBrit : Paragraph :=
  { text := "colour and colour".toList, runs := [{ text := "colour and colour".toList }] }

/-- An oracle reporting the word "qzx" as unknown (frequency 0). -/
def qOr : Oracle := fun w => if w = "qzx".toList then Except.ok 0 else Except.ok 1

/-- A one-run paragraph with two occurrences of the rare word "qzx". -/
def paraDict : Paragraph :=
  { text := "qzx qzx".toList, runs := [{ text := "qzx qzx".toList }] }

/-- A structurally mismatched paragraph: its text has five characters
but it owns no runs at all, so the run texts cannot reconstruct it. -/
def paraMM : Paragraph := { text := "ab cd".toList, runs := [] }

/-- A strict rule matching "ab" (the start of `paraMM`'s text). -/
def rAB : Rule := { pattern := "ab".toList, message := "m", rule_type := .styleGuideRule }

/-- A rule whose pattern is a single space: whitespace-only but not
empty. -/
def rSp : Rule := { pattern := " ".toList, message := "sp", rule_type := .styleGuideCaution }

/-- A one-run paragraph reading "a b", whose middle space sits between
two word characters. -/
def paraAB : Paragraph := { text := "a b".toList, runs := [{ text := "a b".toList }] }

/-- An oracle that fails on the word "zzqj" and succeeds elsewhere. -/
def failOr : Oracle := fun w => if w = "zzqj".toList then Except.error () else Except.ok 1

/-- A strict rule with pattern "x". -/
def rX : Rule := { pattern := "x".toList, message := "mx", rule_type := .styleGuideRule }

/-- A one-run paragraph reading "x zzqj": the literal pass reports "x",
then the dictionary pass queries "zzqj". -/
def paraC7 : Paragraph := { text := "x zzqj".toList, runs := [{ text := "x zzqj".toList }] }

/-- Its paragraph context. -/
def pcC7 : ParaCtx := { text := "x zzqj".toList, charMap := [0, 0, 0, 0, 0, 0], idx := 1 }

/-- Its single run. -/
def runC7 : Run := { text := "x zzqj".toList }

/-- A benign one-run paragraph producing no issue. -/
def paraHello : Paragraph :=
  { text := "hello world".toList, runs := [{ text := "hello world".toList }] }

/-- A paragraph context for the three-letter word "qzx". -/
def pcQzx : ParaCtx := { text := "qzx".toList, charMap := [0, 0, 0], idx := 1 }

/-- Its single run. -/
def runQzx : Run := { text := "qzx".toList }

/-- An oracle reporting "qzx" at exactly the rarity threshold. -/
def orE6 : Oracle := fun w => if w = "qzx".toList then Except.ok rareThreshold else Except.ok 1

/-- An oracle reporting "qzx" at 9.9e-7, just below the threshold. -/
def or99 : Oracle :=
  fun w => if w = "qzx".toList then Except.ok (mkRat 99 100000000) else Except.ok 1

/-- The state after the dictionary pass flags "qzx" under `or99`. -/
def stQzxOut : PState :=
  { runs := [{ text := "qzx".toList, color := some Color.red }],
    applied := [0, 1, 2],
    accepted := [(0, 3)],
    results := [dictIssue pcQzx "qzx".toList 0],
    litPatterns := [] }

/-- A paragraph context for the all-caps text "AB CD". -/
def pcCaps : ParaCtx := { text := "AB CD".toList, charMap := [0, 0, 0, 0, 0], idx := 1 }

/-- Its single run. -/
def runABCD : Run := { text := "AB CD".toList }

/-- The state after the caps pass colors both uppercase runs of
"AB CD" from a fresh state. -/
def stCapsOut : PState :=
  { runs := [{ text := "AB CD".toList, color := some Color.orange }],
    applied := [0, 1, 3, 4],
    accepted := [(0, 2), (3, 5)],
    results := [capsIssue pcCaps],
    litPatterns := [] }

/-- A state of "AB CD" in which every offset is already claimed. -/
def stC10 : PState :=
  { runs := [runABCD], applied := [0, 1, 2, 3, 4], accepted := [(0, 5)],
    results := [], litPatterns := [] }

/-- `stC10` after the caps pass: only the aggregate issue is added. -/
def stC10out : PState :=
  { runs := [runABCD], applied := [0, 1, 2, 3, 4], accepted := [(0, 5)],
    results := [capsIssue pcCaps], litPatterns := [] }

/-! Helper lemmas. -/

theorem not_mem_of_overlaps_false {A : List Nat} {s e : Nat}
    (h : overlaps A s e = false) {i : Nat} (h1 : s ≤ i) (h2 : i < e) : i ∉ A := by
  intro hi
  have hmem : i ∈ List.range' s (e - s) := by
    rw [List.mem_range'_1]
    omega
  have hx := (List.any_eq_false.mp h) i hmem
  simp only [decide_eq_true_eq] at hx
  exact hx hi

theorem claimSpan_inv {st : PState} {runs' : List Run} {s e : Nat}
    {iss : List Issue} {lp : List (List Char)}
    (hInv : ClaimInv st) (hov : overlaps st.applied s e = false) :
    ClaimInv (claimSpan st runs' s e iss lp) := by
  obtain ⟨hsub, hpw⟩ := hInv
  constructor
  · intro p hp i h1 h2
    simp only [claimSpan, List.mem_append] at hp ⊢
    rcases hp with hp | hp
    · exact Or.inl (hsub p hp i h1 h2)
    · simp only [List.mem_singleton] at hp
      subst hp
      refine Or.inr ?_
      rw [List.mem_range'_1]
      simp only at h1 h2
      omega
  · simp only [claimSpan]
    rw [List.pairwise_append]
    refine ⟨hpw, List.pairwise_singleton _ _, ?_⟩
    intro p hp q hq
    simp only [List.mem_singleton] at hq
    subst hq
    rintro i ⟨⟨hp1, hp2⟩, ⟨hq1, hq2⟩⟩
    exact not_mem_of_overlaps_false hov hq1 hq2 (hsub p hp i hp1 hp2)

theorem runLitMatches_inv {pc : ParaCtx} {r : Rule} :
    ∀ {ms : List (Nat × Nat)} {st : PState} {rep : List (List Char)}
      {out : PState × List (List Char)},
    runLitMatches pc r ms st rep = Except.ok out → ClaimInv st → ClaimInv out.1 := by
  intro ms
  induction ms with
  | nil =>
    intro st rep out h hInv
    simp only [runLitMatches] at h
    cases h
    exact hInv
  | cons m ms ih =>
    intro st rep out h hInv
    obtain ⟨s, e⟩ := m
    simp only [runLitMatches] at h
    split at h
    · exact ih h hInv
    · split at h
      · exact ih h hInv
      · rename_i hov _
        split at h
        · exact absurd h (by simp)
        · exact ih h (claimSpan_inv hInv (by simpa using hov))

theorem runRules_inv {pc : ParaCtx} :
    ∀ {rules : List Rule} {st : PState} {rep : List (List Char)}
      {out : PState × List (List Char)},
    runRules pc rules st rep = Except.ok out → ClaimInv st → ClaimInv out.1 := by
  intro rules
  induction rules with
  | nil =>
    intro st rep out h hInv
    simp only [runRules] at h
    cases h
    exact hInv
  | cons r rs ih =>
    intro st rep out h hInv
    simp only [runRules] at h
    split at h
    · exact ih h hInv
    · split at h
      · exact absurd h (by simp)
      · rename_i st1 heq
        exact ih h (runLitMatches_inv heq hInv)

theorem colorUpperRuns_inv {pc : ParaCtx} :
    ∀ {ms : List (Nat × Nat)} {st st' : PState},
    colorUpperRuns pc ms st = Except.ok st' → ClaimInv st → ClaimInv st' := by
  intro ms
  induction ms with
  | nil =>
    intro st st' h hInv
    simp only [colorUpperRuns] at h
    cases h
    exact hInv
  | cons m ms ih =>
    intro st st' h hInv
    obtain ⟨s, e⟩ := m
    simp only [colorUpperRuns] at h
    split at h
    · exact ih h hInv
    · rename_i hov
      split at h
      · exact absurd h (by simp)
      · exact ih h (claimSpan_inv hInv (by simpa using hov))

theorem capsPass_inv {pc : ParaCtx} {st st' : PState}
    (h : capsPass pc st = Except.ok st') (hInv : ClaimInv st) : ClaimInv st' := by
  simp only [capsPass] at h
  split at h
  · split at h
    · exact absurd h (by simp)
    · rename_i st1 heq
      cases h
      exact ⟨(colorUpperRuns_inv heq hInv).1, (colorUpperRuns_inv heq hInv).2⟩
  · cases h
    exact hInv

theorem britPass_inv {pc : ParaCtx} :
    ∀ {ms : List (Nat × Nat)} {st st' : PState},
    britPass pc ms st = Except.ok st' → ClaimInv st → ClaimInv st' := by
  intro ms
  induction ms with
  | nil =>
    intro st st' h hInv
    simp only [britPass] at h
    cases h
    exact hInv
  | cons m ms ih =>
    intro st st' h hInv
    obtain ⟨s, e⟩ := m
    simp only [britPass] at h
    split at h
    · exact ih h hInv
    · split at h
      · exact ih h hInv
      · rename_i hov
        split at h
        · exact absurd h (by simp)
        · exact ih h (claimSpan_inv hInv (by simpa using hov))

theorem dictPass_inv {pc : ParaCtx} {oracle : Oracle} :
    ∀ {ms : List (Nat × Nat)} {st st' : PState},
    dictPass pc oracle ms st = Except.ok st' → ClaimInv st → ClaimInv st' := by
  intro ms
  induction ms with
  | nil =>
    intro st st' h hInv
    simp only [dictPass] at h
    cases h
    exact hInv
  | cons m ms ih =>
    intro st st' h hInv
    obtain ⟨s, e⟩ := m
    simp only [dictPass] at h
    split at h
    · exact ih h hInv
    · split at h
      · exact ih h hInv
      · rename_i hov _
        split at h
        · exact absurd h (by simp)
        · split at h
          · split at h
            · exact absurd h (by simp)
            · exact ih h (claimSpan_inv hInv (by simpa using hov))
          · exact ih h hInv

theorem analyzePara_inv {rules : List Rule} {oracle : Oracle} {idx : Nat}
    {p : Paragraph} {st : PState}
    (h : analyzePara rules oracle idx p = Except.ok st) : ClaimInv st := by
  simp only [analyzePara] at h
  split at h
  · exact absurd h (by simp)
  · rename_i o1 heq1
    split at h
    · exact absurd h (by simp)
    · rename_i st2 heq2
      split at h
      · exact absurd h (by simp)
      · rename_i st3 heq3
        have h0 : ClaimInv (initState p.runs) := by
          constructor
          · intro q hq
            simp [initState] at hq
          · simp [initState]
        exact dictPass_inv h
          (britPass_inv heq3 (capsPass_inv heq2 (runRules_inv heq1 h0)))

/-! Growth lemmas: each pass only appends to the issue list, and a pass
that appended nothing left the whole state untouched. -/

theorem runLitMatches_grow {pc : ParaCtx} {r : Rule} :
    ∀ {ms : List (Nat × Nat)} {st : PState} {rep : List (List Char)}
      {out : PState × List (List Char)},
    runLitMatches pc r ms st rep = Except.ok out →
    ∃ tl, out.1.results = st.results ++ tl ∧ (tl = [] → out = (st, rep)) := by
  intro ms
  induction ms with
  | nil =>
    intro st rep out h
    simp only [runLitMatches] at h
    cases h
    exact ⟨[], by simp⟩
  | cons m ms ih =>
    intro st rep out h
    obtain ⟨s, e⟩ := m
    simp only [runLitMatches] at h
    split at h
    · exact ih h
    · split at h
      · exact ih h
      · split at h
        · exact absurd h (by simp)
        · obtain ⟨tl, htl, _⟩ := ih h
          refine ⟨litIssue pc r s e :: tl, ?_, by simp⟩
          simpa [claimSpan] using htl

theorem runRules_grow {pc : ParaCtx} :
    ∀ {rules : List Rule} {st : PState} {rep : List (List Char)}
      {out : PState × List (List Char)},
    runRules pc rules st rep = Except.ok out →
    ∃ tl, out.1.results = st.results ++ tl ∧ (tl = [] → out = (st, rep)) := by
  intro rules
  induction rules with
  | nil =>
    intro st rep out h
    simp only [runRules] at h
    cases h
    exact ⟨[], by simp⟩
  | cons r rs ih =>
    intro st rep out h
    simp only [runRules] at h
    split at h
    · exact ih h
    · split at h
      · exact absurd h (by simp)
      · rename_i o1 heq
        obtain ⟨tl1, htl1, hid1⟩ := runLitMatches_grow heq
        obtain ⟨tl2, htl2, hid2⟩ := ih h
        refine ⟨tl1 ++ tl2, by rw [htl2, htl1, List.append_assoc], ?_⟩
        intro hnil
        rw [List.append_eq_nil] at hnil
        have h1 := hid1 hnil.1
        rw [h1] at hid2
        exact hid2 hnil.2

theorem colorUpperRuns_results {pc : ParaCtx} :
    ∀ {ms : List (Nat × Nat)} {st st' : PState},
    colorUpperRuns pc ms st = Except.ok st' → st'.results = st.results := by
  intro ms
  induction ms with
  | nil =>
    intro st st' h
    simp only [colorUpperRuns] at h
    cases h
    rfl
  | cons m ms ih =>
    intro st st' h
    obtain ⟨s, e⟩ := m
    simp only [colorUpperRuns] at h
    split at h
    · exact ih h
    · split at h
      · exact absurd h (by simp)
      · simpa [claimSpan] using ih h

theorem capsPass_cases {pc : ParaCtx} {st st' : PState}
    (h : capsPass pc st = Except.ok st') :
    (capsTrigger pc.text = true ∧ st'.results = st.results ++ [capsIssue pc]) ∨
    (capsTrigger pc.text = false ∧ st' = st) := by
  simp only [capsPass] at h
  split at h
  · rename_i htr
    split at h
    · exact absurd h (by simp)
    · rename_i st1 heq
      cases h
      exact Or.inl ⟨htr, by simp [colorUpperRuns_results heq]⟩
  · rename_i htr
    cases h
    exact Or.inr ⟨by simpa using htr, rfl⟩

theorem capsPass_grow {pc : ParaCtx} {st st' : PState}
    (h : capsPass pc st = Except.ok st') :
    ∃ tl, st'.results = st.results ++ tl ∧ (tl = [] → st' = st) := by
  rcases capsPass_cases h with ⟨_, hres⟩ | ⟨_, hid⟩
  · exact ⟨[capsIssue pc], hres, by simp⟩
  · exact ⟨[], by simp [hid], fun _ => hid⟩

theorem britPass_grow {pc : ParaCtx} :
    ∀ {ms : List (Nat × Nat)} {st st' : PState},
    britPass pc ms st = Except.ok st' →
    ∃ tl, st'.results = st.results ++ tl ∧ (tl = [] → st' = st) := by
  intro ms
  induction ms with
  | nil =>
    intro st st' h
    simp only [britPass] at h
    cases h
    exact ⟨[], by simp⟩
  | cons m ms ih =>
    intro st st' h
    obtain ⟨s, e⟩ := m
    simp only [britPass] at h
    split at h
    · exact ih h
    · rename_i repl hlk
      split at h
      · exact ih h
      · split at h
        · exact absurd h (by simp)
        · obtain ⟨tl, htl, _⟩ := ih h
          refine ⟨britIssue pc (slice pc.text s e) repl s :: tl, ?_, by simp⟩
          simpa [claimSpan] using htl

theorem dictPass_grow {pc : ParaCtx} {oracle : Oracle} :
    ∀ {ms : List (Nat × Nat)} {st st' : PState},
    dictPass pc oracle ms st = Except.ok st' →
    ∃ tl, st'.results = st.results ++ tl ∧ (tl = [] → st' = st) := by
  intro ms
  induction ms with
  | nil =>
    intro st st' h
    simp only [dictPass] at h
    cases h
    exact ⟨[], by simp⟩
  | cons m ms ih =>
    intro st st' h
    obtain ⟨s, e⟩ := m
    simp only [dictPass] at h
    split at h
    · exact ih h
    · split at h
      · exact ih h
      · split at h
        · exact absurd h (by simp)
        · split at h
          · split at h
            · exact absurd h (by simp)
            · obtain ⟨tl, htl, _⟩ := ih h
              refine ⟨dictIssue pc (slice pc.text s e) s :: tl, ?_, by simp⟩
              simpa [claimSpan] using htl
          · exact ih h

/-- A paragraph whose processing produced no issue at all ends in its
initial state: nothing was claimed, colored or recorded. -/
theorem analyzePara_empty {rules : List Rule} {oracle : Oracle} {idx : Nat}
    {p : Paragraph} {st : PState}
    (h : analyzePara rules oracle idx p = Except.ok st)
    (hres : st.results = []) : st = initState p.runs := by
  simp only [analyzePara] at h
  split at h
  · exact absurd h (by simp)
  · rename_i o1 heq1
    split at h
    · exact absurd h (by simp)
    · rename_i st2 heq2
      split at h
      · exact absurd h (by simp)
      · rename_i st3 heq3
        obtain ⟨tl4, htl4, hid4⟩ := dictPass_grow h
        obtain ⟨tl3, htl3, hid3⟩ := britPass_grow heq3
        obtain ⟨tl2, htl2, hid2⟩ := capsPass_grow heq2
        obtain ⟨tl1, htl1, hid1⟩ := runRules_grow heq1
        rw [htl4, htl3, htl2, htl1] at hres
        simp only [initState, List.nil_append, List.append_assoc,
          List.append_eq_nil] at hres
        obtain ⟨h1, h2, h3, h4⟩ := hres
        rw [hid4 h4, hid3 h3, hid2 h2]
        have := hid1 h1
        rw [this]

/-- Literal-rule suppression: once a rule's pattern is in the reported
set, every remaining occurrence of that rule is skipped without any
state change. -/
theorem runLitMatches_reported {pc : ParaCtx} {r : Rule} :
    ∀ {ms : List (Nat × Nat)} {st : PState} {rep : List (List Char)},
    r.pattern ∈ rep → runLitMatches pc r ms st rep = Except.ok (st, rep) := by
  intro ms
  induction ms with
  | nil =>
    intro st rep hmem
    simp only [runLitMatches]
  | cons m ms ih =>
    intro st rep hmem
    obtain ⟨s, e⟩ := m
    simp only [runLitMatches]
    split <;> exact ih hmem

/-- A full scan of one rule either changes nothing, or reports exactly
one new issue, for exactly one new pattern (the rule's own). -/
theorem runLitMatches_cases {pc : ParaCtx} {r : Rule} :
    ∀ {ms : List (Nat × Nat)} {st : PState} {rep : List (List Char)}
      {out : PState × List (List Char)},
    runLitMatches pc r ms st rep = Except.ok out →
    out = (st, rep) ∨
    (r.pattern ∉ rep ∧ out.2 = r.pattern :: rep ∧
     out.1.litPatterns = st.litPatterns ++ [r.pattern] ∧
     out.1.results.length = st.results.length + 1) := by
  intro ms
  induction ms with
  | nil =>
    intro st rep out h
    simp only [runLitMatches] at h
    cases h
    exact Or.inl rfl
  | cons m ms ih =>
    intro st rep out h
    obtain ⟨s, e⟩ := m
    simp only [runLitMatches] at h
    split at h
    · exact ih h
    · split at h
      · exact ih h
      · rename_i hnm
        split at h
        · exact absurd h (by simp)
        · rw [runLitMatches_reported (by simp)] at h
          cases h
          exact Or.inr ⟨hnm, rfl, by simp [claimSpan], by simp [claimSpan]⟩

/-- The literal pass appends one issue per newly reported pattern; the
newly reported patterns are distinct and were not reported before. -/
theorem runRules_news {pc : ParaCtx} :
    ∀ {rules : List Rule} {st : PState} {rep : List (List Char)}
      {st' : PState} {rep' : List (List Char)},
    runRules pc rules st rep = Except.ok (st', rep') →
    ∃ news : List (List Char),
      st'.litPatterns = st.litPatterns ++ news ∧
      rep' = news.reverse ++ rep ∧
      news.Nodup ∧ (∀ q ∈ news, q ∉ rep) ∧
      st'.results.length = st.results.length + news.length := by
  intro rules
  induction rules with
  | nil =>
    intro st rep st' rep' h
    simp only [runRules] at h
    cases h
    exact ⟨[], by simp⟩
  | cons r rs ih =>
    intro st rep st' rep' h
    simp only [runRules] at h
    split at h
    · exact ih h
    · split at h
      · exact absurd h (by simp)
      · rename_i a b heq
        rcases runLitMatches_cases heq with heq' | ⟨hnm, h2, h3, h4⟩
        · simp only [Prod.mk.injEq] at heq'
          obtain ⟨rfl, rfl⟩ := heq'
          exact ih h
        · simp only at h2 h3 h4
          subst h2
          obtain ⟨news, hn1, hn2, hn3, hn4, hn5⟩ := ih h
          refine ⟨r.pattern :: news, ?_, ?_, ?_, ?_, ?_⟩
          · rw [hn1, h3, List.append_assoc]
            rfl
          · rw [hn2, List.reverse_cons, List.append_assoc]
            rfl
          · refine List.nodup_cons.mpr ⟨?_, hn3⟩
            intro hc
            exact (hn4 _ hc) (List.mem_cons_self _ _)
          · intro q hq
            rcases List.mem_cons.mp hq with rfl | hq
            · exact hnm
            · intro hc
              exact (hn4 _ hq) (List.mem_cons_of_mem _ hc)
          · rw [hn5, h4, List.length_cons]
            omega

/-- Coloring a span succeeds only when every offset of the span is
inside the mapped region: no offset is ever colored through a guessed
(absent) char-to-run entry. -/
theorem colorChars_dom {charMap : List Nat} {c : Color} :
    ∀ {n i : Nat} {runs runs' : List Run},
    colorChars charMap c runs i n = Except.ok runs' →
    ∀ j, i ≤ j → j < i + n → j < charMap.length := by
  intro n
  induction n with
  | zero =>
    intro i runs runs' h j h1 h2
    omega
  | succ n ih =>
    intro i runs runs' h j h1 h2
    simp only [colorChars] at h
    split at h
    · exact absurd h (by simp)
    · rename_i k hk
      rcases Nat.eq_or_lt_of_le h1 with rfl | hlt
      · obtain ⟨hlen, _⟩ := List.get?_eq_some.mp hk
        exact hlen
      · exact ih h j hlt (by omega)

/-- When every uppercase run is already claimed, the coloring loop of
the caps pass changes nothing. -/
theorem colorUpperRuns_allClaimed {pc : ParaCtx} :
    ∀ {ms : List (Nat × Nat)} {st : PState},
    (∀ sp ∈ ms, overlaps st.applied sp.1 sp.2 = true) →
    colorUpperRuns pc ms st = Except.ok st := by
  intro ms
  induction ms with
  | nil =>
    intro st _
    simp only [colorUpperRuns]
  | cons m ms ih =>
    intro st hall
    obtain ⟨s, e⟩ := m
    simp only [colorUpperRuns]
    rw [if_pos]
    · exact ih (fun sp hsp => hall sp (List.mem_cons_of_mem _ hsp))
    · exact hall (s, e) (List.mem_cons_self _ _)

/-- The LCS diff of a token list against itself keeps every token. -/
theorem diffTok_self : ∀ (xs : List String) (f : Nat), xs.length < f →
    diffTok f xs xs = xs.map DTok.keep := by
  intro xs
  induction xs with
  | nil =>
    intro f hf
    cases f with
    | zero => omega
    | succ f => simp [diffTok]
  | cons x xs ih =>
    intro f hf
    cases f with
    | zero => omega
    | succ f =>
      simp only [diffTok, List.map_cons, if_true]
      rw [ih f (by simpa using hf)]

/-- The source's float comparison `caps / words >= 0.6`, read over
exact rationals, coincides with `3 * words ≤ 5 * caps`. -/
theorem caps_ratio_iff {c w : Nat} (hw : 0 < w) :
    ((6 : ℚ) / 10 ≤ (c : ℚ) / (w : ℚ)) ↔ 3 * w ≤ 5 * c := by
  rw [div_le_div_iff₀ (by norm_num) (by exact_mod_cast hw)]
  constructor
  · intro h
    have h2 : (6 * w : ℚ) ≤ 10 * c := by linarith
    have h3 : (6 * w : ℕ) ≤ 10 * c := by exact_mod_cast h2
    omega
  · intro h
    have h2 : (6 * w : ℕ) ≤ 10 * c := by omega
    have h3 : (6 * w : ℚ) ≤ 10 * c := by exact_mod_cast h2
    linarith

/-- A whole call that reported no issue returns the document with no
paragraph changed. -/
theorem analyzeDocFrom_empty {rules : List Rule} {oracle : Oracle} :
    ∀ {doc : List Paragraph} {idx : Nat} {out : List Paragraph × List Issue},
    analyzeDocFrom rules oracle idx doc = Except.ok out → out.2 = [] →
    out.1 = doc := by
  intro doc
  induction doc with
  | nil =>
    intro idx out h _
    simp only [analyzeDocFrom] at h
    cases h
    rfl
  | cons p ps ih =>
    intro idx out h hemp
    simp only [analyzeDocFrom] at h
    split at h
    · split at h
      · exact absurd h (by simp)
      · rename_i o heq
        cases h
        simp only at hemp ⊢
        rw [ih heq hemp]
    · split at h
      · exact absurd h (by simp)
      · rename_i st heq
        split at h
        · exact absurd h (by simp)
        · rename_i o heq2
          cases h
          simp only at hemp ⊢
          rw [List.append_eq_nil] at hemp
          obtain ⟨h1, h2⟩ := hemp
          have hst : st = initState p.runs := analyzePara_empty heq h1
          rw [ih heq2 h2, hst]
          rfl

/-! The claims. -/

/-- Claim C1: in every paragraph processed by analyze_doc, the accepted
matches of the four passes occupy pairwise disjoint character offsets;
and in every pass, a candidate whose span intersects an already
claimed offset is rejected atomically — the scan continues on an
unchanged state, so the candidate claims no offsets, changes no style
and reports no issue. -/
theorem claim_C1 :
    (∀ (rules : List Rule) (oracle : Oracle) (idx : Nat) (p : Paragraph) (st : PState),
      analyzePara rules oracle idx p = Except.ok st →
      st.accepted.Pairwise SpanDisj) ∧
    (∀ (pc : ParaCtx) (r : Rule) (s e : Nat) (ms : List (Nat × Nat))
       (st : PState) (rep : List (List Char)),
      overlaps st.applied s e = true →
      runLitMatches pc r ((s, e) :: ms) st rep = runLitMatches pc r ms st rep) ∧
    (∀ (pc : ParaCtx) (s e : Nat) (ms : List (Nat × Nat)) (st : PState),
      overlaps st.applied s e = true →
      colorUpperRuns pc ((s, e) :: ms) st = colorUpperRuns pc ms st) ∧
    (∀ (pc : ParaCtx) (s e : Nat) (ms : List (Nat × Nat)) (st : PState),
      overlaps st.applied s e = true →
      britPass pc ((s, e) :: ms) st = britPass pc ms st) ∧
    (∀ (pc : ParaCtx) (oracle : Oracle) (s e : Nat) (ms : List (Nat × Nat)) (st : PState),
      overlaps st.applied s e = true →
      dictPass pc oracle ((s, e) :: ms) st = dictPass pc oracle ms st) := by
  refine ⟨?_, ?_, ?_, ?_, ?_⟩
  · intro rules oracle idx p st h
    exact (analyzePara_inv h).2
  · intro pc r s e ms st rep h
    simp [runLitMatches, h]
  · intro pc s e ms st h
    simp [colorUpperRuns, h]
  · intro pc s e ms st h
    cases hL : List.lookup (lowerL (slice pc.text s e)) BRITISH_TO_AMERICAN with
    | none => simp [britPass, hL]
    | some repl => simp [britPass, hL, h]
  · intro pc oracle s e ms st h
    simp [dictPass, h]

/-- Witness for C1: the two accepted spans of the concrete paragraph
"y z" are disjoint, and concrete fully-claimed candidates are skipped
without state change in each pass. -/
theorem claim_C1_witness :
    stYZ.accepted.Pairwise SpanDisj ∧
    runLitMatches pcCaps rW [(0, 1), (2, 3)] stC10 [] =
      runLitMatches pcCaps rW [(2, 3)] stC10 [] ∧
    colorUpperRuns pcCaps [(0, 2)] stC10 = colorUpperRuns pcCaps [] stC10 ∧
    britPass pcCaps [(0, 2)] stC10 = britPass pcCaps [] stC10 ∧
    dictPass pcCaps okOr [(0, 2)] stC10 = dictPass pcCaps okOr [] stC10 :=
  ⟨claim_C1.1 [rW, rZ] okOr 1 paraYZ stYZ (by rfl),
   claim_C1.2.1 pcCaps rW 0 1 [(2, 3)] stC10 [] (by decide),
   claim_C1.2.2.1 pcCaps 0 2 [] stC10 (by decide),
   claim_C1.2.2.2.1 pcCaps 0 2 [] stC10 (by decide),
   claim_C1.2.2.2.2 pcCaps okOr 0 2 [] stC10 (by decide)⟩

/-- Counterexample to C2 as stated: in "x y z y" under rules ["x y"
then "y"], rule "x y" claims offsets 0-2, the first occurrence of "y"
(offset 2) is rejected for overlap without being reported, and the
second textual occurrence of "y" is then reported at char_index 7 —
the claim requires every occurrence after the first to be
suppressed. -/
theorem claim_C2_cex :
    (analyzePara [rXY, rW] okOr 1 paraC2).map
        (fun st => st.results.map (fun i => (i.match_text, i.char_index))) =
      Except.ok [("x y".toList, 1), ("y".toList, 7)] := by
  rfl

/-- Claim C2 (amended): a literal rule yields at most one issue per
paragraph — the reported occurrence is the first one accepted by
overlap resolution, not necessarily the first textual one — and once a
rule's pattern has been reported, every remaining occurrence is
suppressed even when unclaimed; regional-spelling and
dictionary-rarity words occurring twice with unclaimed offsets yield
two issues. -/
theorem claim_C2 :
    (∀ (pc : ParaCtx) (r : Rule) (ms : List (Nat × Nat)) (st : PState)
       (rep : List (List Char)),
      r.pattern ∈ rep → runLitMatches pc r ms st rep = Except.ok (st, rep)) ∧
    (∀ (pc : ParaCtx) (rules : List Rule) (runs : List Run) (st' : PState)
       (rep' : List (List Char)),
      runRules pc rules (initState runs) [] = Except.ok (st', rep') →
      st'.litPatterns.Nodup ∧ st'.results.length = st'.litPatterns.length) ∧
    (analyze_doc [] okOr [paraBrit]).map
        (fun o => o.2.map (fun i => (i.match_text, i.char_index))) =
      Except.ok [("colour".toList, 1), ("colour".toList, 12)] ∧
    (analyze_doc [] qOr [paraDict]).map
        (fun o => o.2.map (fun i => (i.match_text, i.char_index))) =
      Except.ok [("qzx".toList, 1), ("qzx".toList, 5)] := by
  refine ⟨?_, ?_, by rfl, by rfl⟩
  · intro pc r ms st rep h
    exact runLitMatches_reported h
  · intro pc rules runs st' rep' h
    obtain ⟨news, hn1, hn2, hn3, hn4, hn5⟩ := runRules_news h
    simp only [initState, List.nil_append, List.length_nil, Nat.zero_add] at hn1 hn5
    rw [hn1]
    exact ⟨hn3, by rw [hn5]⟩

/-- Witness for C2 on concrete states: a reported pattern suppresses a
fresh occurrence without state change, and the literal pass of "y z"
reports two distinct patterns with one issue each. -/
theorem claim_C2_witness :
    runLitMatches pcCaps rW [(0, 1)] stC10 ["y".toList] =
      Except.ok (stC10, ["y".toList]) ∧
    (stYZ.litPatterns.Nodup ∧ stYZ.results.length = stYZ.litPatterns.length) :=
  ⟨claim_C2.1 pcCaps rW [(0, 1)] stC10 ["y".toList] (by decide),
   claim_C2.2.1 pcYZ [rW, rZ] paraYZ.runs stYZ ["z".toList, "y".toList] (by rfl)⟩

/-- Counterexample to C3's example: the tokens of "THE QUICK brown FOX
JUMPS" contain 4 fully uppercase tokens out of 5, not 3 out of 5 as
the claim computes (the paragraph still triggers, at 80%). -/
theorem claim_C3_cex :
    capsCount "THE QUICK brown FOX JUMPS".toList = 4 ∧
    ¬ capsCount "THE QUICK brown FOX JUMPS".toList = 3 ∧
    (capsWords "THE QUICK brown FOX JUMPS".toList).length = 5 ∧
    capsTrigger "THE QUICK brown FOX JUMPS".toList = true := by
  refine ⟨by rfl, by decide, by rfl, by rfl⟩

/-- Claim C3 (amended): for a paragraph with at least one alphabetic
token of length ≥ 2, the caps pass appends the aggregate issue (match
text "ALL CAPS sentence", category "Style guide caution", char_index
1) exactly when the fraction of fully uppercase tokens is at least
0.6, and leaves the state untouched below that threshold.  The
example tokens THE QUICK brown FOX JUMPS give 4/5 = 80% and trigger;
THE QUICK brown fox JUMPS give exactly 3/5 = 60% and trigger; THE
quick brown fox JUMPS give 2/5 = 40% and do not. -/
theorem claim_C3 :
    (∀ (pc : ParaCtx) (st st' : PState),
      capsPass pc st = Except.ok st' →
      capsWords pc.text ≠ [] →
      (((6 : ℚ) / 10 ≤ (capsCount pc.text : ℚ) / ((capsWords pc.text).length : ℚ) →
          st'.results = st.results ++ [capsIssue pc]) ∧
       ((capsCount pc.text : ℚ) / ((capsWords pc.text).length : ℚ) < 6 / 10 →
          st' = st))) ∧
    (∀ pc : ParaCtx, (capsIssue pc).match_text = "ALL CAPS sentence".toList ∧
      (capsIssue pc).rule_category = "Style guide caution" ∧
      (capsIssue pc).char_index = 1) ∧
    capsTrigger "THE QUICK brown FOX JUMPS".toList = true ∧
    capsTrigger "THE QUICK brown fox JUMPS".toList = true ∧
    capsTrigger "THE quick brown fox JUMPS".toList = false := by
  refine ⟨?_, fun pc => ⟨rfl, rfl, rfl⟩, by rfl, by rfl, by rfl⟩
  intro pc st st' h hne
  have hw : 0 < (capsWords pc.text).length := List.length_pos.mpr hne
  have hEmp : (capsWords pc.text).isEmpty = false := by
    simpa [List.isEmpty_iff] using hne
  rcases capsPass_cases h with ⟨htr, hres⟩ | ⟨htr, hid⟩
  · have hcmp : 3 * (capsWords pc.text).length ≤ 5 * capsCount pc.text := by
      simp only [capsTrigger, hEmp, Bool.not_false, Bool.true_and,
        decide_eq_true_eq] at htr
      exact htr
    constructor
    · intro _
      exact hres
    · intro hlt
      exact absurd ((caps_ratio_iff hw).mpr hcmp) (not_le.mpr hlt)
  · have hcmp : ¬ 3 * (capsWords pc.text).length ≤ 5 * capsCount pc.text := by
      simp only [capsTrigger, hEmp, Bool.not_false, Bool.true_and,
        decide_eq_false_iff_not] at htr
      exact htr
    constructor
    · intro hge
      exact absurd ((caps_ratio_iff hw).mp hge) hcmp
    · intro _
      exact hid

/-- Witness for C3: the caps pass on a fresh "AB CD" state appends
exactly the aggregate issue (2/2 = 100% ≥ 60%). -/
theorem claim_C3_witness :
    stCapsOut.results = (initState [runABCD]).results ++ [capsIssue pcCaps] :=
  ((claim_C3.1 pcCaps (initState [runABCD]) stCapsOut (by rfl) (by decide)).1
    (by norm_num [show capsCount pcCaps.text = 2 from rfl,
      show (capsWords pcCaps.text).length = 2 from rfl]))

/-- Claim C4: the dictionary pass is a strict comparison against 1e-6.
An unclaimed, purely alphabetic word whose reported frequency is
exactly the threshold is skipped with no state change; a reported
frequency strictly below it yields an issue with category "Style
guide rule" and no suggested replacement. -/
theorem claim_C4 :
    ∀ (pc : ParaCtx) (oracle : Oracle) (ms : List (Nat × Nat)) (st : PState)
      (s e : Nat),
      overlaps st.applied s e = false →
      (slice pc.text s e).all Char.isAlpha = true →
      ((oracle (lowerL (slice pc.text s e)) = Except.ok rareThreshold →
          dictPass pc oracle ((s, e) :: ms) st = dictPass pc oracle ms st) ∧
       (∀ q : ℚ, oracle (lowerL (slice pc.text s e)) = Except.ok q →
          q < rareThreshold →
          ∀ st', dictPass pc oracle ((s, e) :: ms) st = Except.ok st' →
          ∃ tl, st'.results =
            st.results ++ dictIssue pc (slice pc.text s e) s :: tl) ∧
       (dictIssue pc (slice pc.text s e) s).suggested_replacement = none ∧
       (dictIssue pc (slice pc.text s e) s).rule_category = "Style guide rule") := by
  intro pc oracle ms st s e hov hal
  refine ⟨?_, ?_, rfl, rfl⟩
  · intro hor
    simp [dictPass, hov, hal, hor, lt_irrefl]
  · intro q hor hlt st' h
    simp only [dictPass, hov, hal, hor, Bool.false_eq_true, if_false,
      Bool.not_true, if_pos hlt] at h
    split at h
    · exact absurd h (by simp)
    · obtain ⟨tl, htl, _⟩ := dictPass_grow h
      exact ⟨tl, by simpa [claimSpan] using htl⟩

/-- Witness for C4: the word "qzx" is skipped at frequency exactly
1e-6 and flagged at 9.9e-7. -/
theorem claim_C4_witness :
    dictPass pcQzx orE6 [(0, 3)] (initState [runQzx]) =
      dictPass pcQzx orE6 [] (initState [runQzx]) ∧
    (∃ tl, stQzxOut.results =
      (initState [runQzx]).results ++ dictIssue pcQzx (slice pcQzx.text 0 3) 0 :: tl) :=
  ⟨(claim_C4 pcQzx orE6 [] (initState [runQzx]) 0 3 (by decide) (by decide)).1
     (by rfl),
   (claim_C4 pcQzx or99 [] (initState [runQzx]) 0 3 (by decide) (by decide)).2.1
     (mkRat 99 100000000) (by rfl) (by decide) stQzxOut (by rfl)⟩

/-- Counterexample to C5: `paraMM` has text "ab cd" but no runs, so
the run texts cannot reconstruct the text; processing nevertheless
completes without any error and returns the paragraph untouched —
no StructuralMismatch failure is raised. -/
theorem claim_C5_cex :
    analyze_doc [] okOr [paraMM] = Except.ok ([paraMM], []) := by
  rfl

/-- Claim C5 (amended): the engine performs no structural check.  A
paragraph whose runs do not reconstruct its text is processed with the
partial offset map; the call fails — with a key-lookup error that
aborts the whole call, not a StructuralMismatch for that paragraph —
exactly when an accepted match needs an unmapped offset.  No character
is ever colored through a guessed mapping: coloring succeeds only when
every offset of the span is mapped. -/
theorem claim_C5 :
    (∀ (charMap : List Nat) (c : Color) (runs runs' : List Run) (i n : Nat),
      colorChars charMap c runs i n = Except.ok runs' →
      ∀ j, i ≤ j → j < i + n → j < charMap.length) ∧
    analyze_doc [] okOr [paraMM] = Except.ok ([paraMM], []) ∧
    analyze_doc [rAB] okOr [paraMM] = Except.error AErr.keyErr := by
  refine ⟨?_, by rfl, by rfl⟩
  intro charMap c runs runs' i n h j h1 h2
  exact colorChars_dom h j h1 h2

/-- Witness for C5: a concrete successful coloring of offset 0 forces
that offset to be inside the one-entry map. -/
theorem claim_C5_witness :
    colorChars [0] Color.red [{ text := "a".toList }] 0 1 =
      Except.ok [{ text := "a".toList, color := some Color.red }] ∧
    (0 : Nat) < ([0] : List Nat).length :=
  ⟨by rfl,
   claim_C5.1 [0] Color.red [{ text := "a".toList }]
     [{ text := "a".toList, color := some Color.red }] 0 1 (by rfl) 0
     (by decide) (by decide)⟩

/-- Counterexample to C6: a single-space pattern is whitespace-only
but not empty, so the literal pass does not skip it; in "a b" it
matches the space at offset 1 and produces an issue (match " ",
char_index 2). -/
theorem claim_C6_cex :
    (analyze_doc [rSp] okOr [paraAB]).map
        (fun o => o.2.map (fun i => (i.match_text, i.char_index))) =
      Except.ok [(" ".toList, 2)] := by
  rfl

/-- Claim C6 (amended): only a rule whose pattern is the empty string
is skipped silently by the literal pass; a whitespace-only pattern is
not skipped, and it can match (a single-space pattern matches any
space between two word characters), color the run and produce an
issue. -/
theorem claim_C6 :
    (∀ (pc : ParaCtx) (r : Rule) (rs : List Rule) (st : PState)
       (rep : List (List Char)),
      r.pattern = [] → runRules pc (r :: rs) st rep = runRules pc rs st rep) ∧
    (analyze_doc [rSp] okOr [paraAB]).map
        (fun o => o.2.map (fun i => (i.match_text, i.char_index))) =
      Except.ok [(" ".toList, 2)] := by
  refine ⟨?_, by rfl⟩
  intro pc r rs st rep h
  simp [runRules, h]

/-- Witness for C6: a concrete empty-pattern rule is skipped with no
effect at all. -/
theorem claim_C6_witness :
    runRules pcCaps [{ pattern := [] }] stC10 [] = runRules pcCaps [] stC10 [] :=
  claim_C6.1 pcCaps { pattern := [] } [] stC10 [] rfl

/-- Counterexample to C7: with an oracle that fails on "zzqj", the
whole analyze_doc call on "x zzqj" errors out and returns nothing,
even though the literal pass had found the issue "x" (which the same
call returns when the oracle works). -/
theorem claim_C7_cex :
    analyze_doc [rX] failOr [paraC7] = Except.error AErr.oracleErr ∧
    (analyze_doc [rX] okOr [paraC7]).map
        (fun o => o.2.map (fun i => i.match_text)) =
      Except.ok ["x".toList] :=
  ⟨by rfl, by rfl⟩

/-- Claim C7 (amended): an oracle failure is not recovered.  The
dictionary pass propagates it, so the entire annotate call fails and
no issues are returned — including those the literal, capitalization
and regional passes had already produced. -/
theorem claim_C7 :
    (∀ (pc : ParaCtx) (oracle : Oracle) (ms : List (Nat × Nat)) (st : PState)
       (s e : Nat),
      overlaps st.applied s e = false →
      (slice pc.text s e).all Char.isAlpha = true →
      oracle (lowerL (slice pc.text s e)) = Except.error () →
      dictPass pc oracle ((s, e) :: ms) st = Except.error AErr.oracleErr) ∧
    analyze_doc [rX] failOr [paraC7] = Except.error AErr.oracleErr ∧
    (analyze_doc [rX] okOr [paraC7]).map
        (fun o => o.2.map (fun i => i.match_text)) =
      Except.ok ["x".toList] := by
  refine ⟨?_, by rfl, by rfl⟩
  intro pc oracle ms st s e hov hal hor
  simp [dictPass, hov, hal, hor]

/-- Witness for C7: the failing oracle aborts the dictionary pass on
the concrete word "zzqj". -/
theorem claim_C7_witness :
    dictPass pcC7 failOr [(2, 6)] (initState [runC7]) =
      Except.error AErr.oracleErr :=
  claim_C7.1 pcC7 failOr [] (initState [runC7]) 2 6 (by decide) (by decide)
    (by rfl)

/-- Claim C8: the diff generator is deterministic and restartable —
identical inputs give identical output — and diffing a text against
itself keeps every token: no token is tagged inserted or deleted, and
the rendered output is just the tokens joined by single spaces. -/
theorem claim_C8 :
    (∀ before_text after_text : String,
      generate_diff before_text after_text = generate_diff before_text after_text) ∧
    (∀ x : String, ndiff (splitWs x) (splitWs x) = (splitWs x).map DTok.keep) ∧
    (∀ x : String, generate_diff x x = String.intercalate " " (splitWs x)) := by
  refine ⟨fun _ _ => rfl, ?_, ?_⟩
  · intro x
    exact diffTok_self _ _ (by omega)
  · intro x
    unfold generate_diff ndiff
    rw [diffTok_self _ _ (by omega), List.map_map]
    simp only [Function.comp_def, renderTok, List.map_id']

/-- Claim C9: a call that found no issue returns the empty issue list
and the document unmodified; this outcome is a normal return, not an
error. -/
theorem claim_C9 :
    ∀ (rules : List Rule) (oracle : Oracle) (doc : List Paragraph)
      (out : List Paragraph × List Issue),
      analyze_doc rules oracle doc = Except.ok out → out.2 = [] → out.1 = doc := by
  intro rules oracle doc out h hemp
  exact analyzeDocFrom_empty h hemp

/-- Witness for C9: a benign document comes back untouched with no
issues. -/
theorem claim_C9_witness :
    analyze_doc [] okOr [paraHello] = Except.ok ([paraHello], []) ∧
    ([paraHello], ([] : List Issue)).1 = [paraHello] :=
  ⟨by rfl, claim_C9 [] okOr [paraHello] ([paraHello], []) (by rfl) rfl⟩

/-- Claim C10: when the caps trigger holds, the caps pass appends
exactly one aggregate "ALL CAPS sentence" issue, unconditionally: the
aggregate is never offered to overlap resolution and claims no offsets
of its own, so even when every uppercase run's offsets are already
claimed the issue is still emitted and the state is otherwise
unchanged. -/
theorem claim_C10 :
    ∀ (pc : ParaCtx) (st st' : PState),
      capsTrigger pc.text = true →
      capsPass pc st = Except.ok st' →
      st'.results = st.results ++ [capsIssue pc] ∧
      ((∀ sp ∈ upperSpans pc.text, overlaps st.applied sp.1 sp.2 = true) →
        st' = { st with results := st.results ++ [capsIssue pc] }) := by
  intro pc st st' htr h
  constructor
  · rcases capsPass_cases h with ⟨_, hres⟩ | ⟨hf, _⟩
    · exact hres
    · rw [htr] at hf
      cases hf
  · intro hall
    simp only [capsPass, if_pos htr] at h
    rw [colorUpperRuns_allClaimed hall] at h
    exact (Except.ok.inj h).symm

/-- Witness for C10: on "AB CD" with all five offsets already claimed,
the caps pass still appends the aggregate issue and changes nothing
else. -/
theorem claim_C10_witness :
    stC10out.results = stC10.results ++ [capsIssue pcCaps] ∧
    stC10out = { stC10 with results := stC10.results ++ [capsIssue pcCaps] } := by
  have h := claim_C10 pcCaps stC10 stC10out (by rfl) (by rfl)
  exact ⟨h.1, h.2 (by decide)⟩

end SGB
